import Mathlib

/-!
Verification of the mailrules rule-language front end and rule engine.

The definitions below are shallow embeddings of the Go sources:
* the lexer (`TokenType`, `Token`, `Lexer`, `Lexer.nextToken`, `Lexer.scanQuote`, ...)
  follows `parse` package lexer (NextToken / scanQuote / scanComment /
  scanIdentifier / scanNumber / skipNontokens).  The Go lexer decodes the
  input as UTF-8 runes; we model the input as the decoded rune sequence
  (`List Char`) and keep byte positions faithful by advancing positions by
  `Char.utf8Size`.  `lex.r` (the current rune, `-1` at end of input) is
  modelled as the head of the remaining list (`none` at end of input).
* the token-number table and `Parser.Lex`/`Parser.Parse` of `parse/parser.go`
  (`mapToken`, `toGrammarTokens`, `ParseGo`): token kinds missing from the
  `tokenNumbers` array map to the zero value, which the generated goyacc
  parser treats as end of input (`if char <= 0 { token = EOF }` in the
  goyacc driver), so `toGrammarTokens` truncates the token stream there.
* the two yacc grammars: `yaccParse` embeds the grammar of the
  `stream`-capable grammar file (an LALR(1) grammar with
  `%left AND OR` / `%right NOT`; the precedence declarations resolve every
  shift/reduce conflict so that the grammar denotes the recursive-descent
  parser below: a condition is a left-associated chain of units joined by
  `and`/`or` at a single precedence level, where a unit is a comparison, a
  parenthesised condition, or `not` applied to a unit), and `yaccParseY`
  embeds `parse/rules.y` (identical except that it has no `stream` action
  and its semantic actions only strip the surrounding quotes from string
  literals instead of also unescaping them).  The `list` nonterminal of the
  `stream`-capable grammar is unreachable from the start symbol and is not
  modelled.
* the rule AST and engine of `rules/rules.go` (`MoveRule`, `FlagRule`,
  `UnflagRule`, `StreamRule` with their `message`/`action` steps), the
  README variant of `StreamRule` with an HTTP sink and a `done` set
  (`StreamRuleH`), `messageMIME`, and the HTTP status guard of
  `StreamRule.handleMessage`.  External collaborators (the IMAP client,
  regexp engine, `mime.ParseMediaType`, HTTP transport, delivery outcomes)
  are modelled as explicit parameters; requests issued to the IMAP client
  are reified as a `ClientRequest` trace.
-/

/-- The character `"` (byte 34). -/
def quoteCh : Char := Char.ofNat 34

/-- The character `\` (byte 92). -/
def backslashCh : Char := Char.ofNat 92

/-- Total UTF-8 byte length of a rune sequence. -/
def utf8Len (l : List Char) : Nat := (l.map Char.utf8Size).sum

/-- Token kinds of the lexer (the `Token*` constants of the lexer file). -/
inductive TokenType where
  | error | eof
  | comment | identifier | number | quote
  | plus | minus | multiply | divide | period | backslash
  | colon | percent | pipe | exclamation | question | pound
  | ampersand | semi | comma | leftParen | rightParen
  | leftAngle | rightAngle | leftBrace | rightBrace
  | leftBracket | rightBracket | equals | tilde
  | kwIf | kwMove | kwAnd | kwOr | kwNot | kwThen
  | kwFlag | kwUnflag | kwStream
  deriving DecidableEq, Repr

/-- A lexer token: kind, literal value, byte position (the `Token` struct). -/
structure Token where
  tokType : TokenType
  value : String
  posn : Nat
  deriving DecidableEq, Repr

/-- The operator lookup table `opTable` (single-character operators). -/
def opLookup (c : Char) : Option TokenType :=
  if c = '+' then some .plus
  else if c = '-' then some .minus
  else if c = '*' then some .multiply
  else if c = '/' then some .divide
  else if c = '.' then some .period
  else if c = backslashCh then some .backslash
  else if c = ':' then some .colon
  else if c = '%' then some .percent
  else if c = '|' then some .pipe
  else if c = '!' then some .exclamation
  else if c = '?' then some .question
  else if c = '#' then some .pound
  else if c = '&' then some .ampersand
  else if c = ';' then some .semi
  else if c = ',' then some .comma
  else if c = '(' then some .leftParen
  else if c = ')' then some .rightParen
  else if c = '<' then some .leftAngle
  else if c = '>' then some .rightAngle
  else if c = '{' then some .leftBrace
  else if c = '}' then some .rightBrace
  else if c = '[' then some .leftBracket
  else if c = ']' then some .rightBracket
  else if c = '=' then some .equals
  else if c = '~' then some .tilde
  else none

/-- The `reservedWords` map. -/
def reservedLookup (s : String) : Option TokenType :=
  if s = "if" then some .kwIf
  else if s = "move" then some .kwMove
  else if s = "and" then some .kwAnd
  else if s = "or" then some .kwOr
  else if s = "not" then some .kwNot
  else if s = "then" then some .kwThen
  else if s = "flag" then some .kwFlag
  else if s = "unflag" then some .kwUnflag
  else if s = "stream" then some .kwStream
  else none

/-- `isAlpha` of the lexer. -/
def isAlphaCh (c : Char) : Bool :=
  ('a' ≤ c && c ≤ 'z') || ('A' ≤ c && c ≤ 'Z') || c = '_' || c = '$'

/-- `isDigit` of the lexer. -/
def isDigitCh (c : Char) : Bool := '0' ≤ c && c ≤ '9'

/-- Lexer state: remaining decoded input (head = current rune `lex.r`,
empty = end of input) and the byte offset of the current rune (`lex.rpos`;
at end of input this is the total byte length, as in the Go code). -/
structure Lexer where
  rest : List Char
  pos : Nat
  deriving DecidableEq, Repr

namespace Lexer

/-- `lex.next()`: advance to the next rune (no-op at end of input). -/
def next : Lexer → Lexer
  | ⟨[], p⟩ => ⟨[], p⟩
  | ⟨c :: cs, p⟩ => ⟨cs, p + c.utf8Size⟩

/-- `skipNontokens`: skip spaces, tabs, newlines, carriage returns. -/
def skipNontokens (st : Lexer) : Lexer :=
  let ws := st.rest.takeWhile (fun c => c = ' ' || c = '\t' || c = '\n' || c = '\r')
  ⟨st.rest.drop ws.length, st.pos + utf8Len ws⟩

/-- `scanIdentifier`: consume alphanumeric run, tag reserved words. -/
def scanIdentifier (st : Lexer) : Token × Lexer :=
  let chars := st.rest.takeWhile (fun c => isAlphaCh c || isDigitCh c)
  let val := String.mk chars
  let st' : Lexer := ⟨st.rest.drop chars.length, st.pos + utf8Len chars⟩
  match reservedLookup val with
  | some t => (⟨t, val, st.pos⟩, st')
  | none => (⟨.identifier, val, st.pos⟩, st')

/-- `scanNumber`: consume a digit run. -/
def scanNumber (st : Lexer) : Token × Lexer :=
  let chars := st.rest.takeWhile (fun c => isDigitCh c)
  (⟨.number, String.mk chars, st.pos⟩, ⟨st.rest.drop chars.length, st.pos + utf8Len chars⟩)

/-- The loop of `scanQuote`: starting just after the opening quote, consume
runes while `lex.r > 0 && lex.r != '"'`, validating escapes.  Returns the
consumed runes and the state stopped at the terminator (a quote, a NUL, or
end of input), or the byte position handed to `makeErrorToken` for an
illegal escape sequence. -/
def scanQuoteLoopAux : List Char → Nat → Except Nat (List Char × Lexer)
  | [], p => .ok ([], ⟨[], p⟩)
  | c :: cs, p =>
    if c.toNat = 0 || c = quoteCh then .ok ([], ⟨c :: cs, p⟩)
    else if c = backslashCh then
      -- `lex.next()` then the escape switch: positions advance by the
      -- consumed rune's byte width, as in `next`.
      match cs with
      | e :: cs2 =>
        if e = backslashCh || e = quoteCh then
          match scanQuoteLoopAux cs2 (p + c.utf8Size + e.utf8Size) with
          | .ok (v, st') => .ok (c :: e :: v, st')
          | .error q => .error q
        else .error (p + c.utf8Size)
      | [] => .error (p + c.utf8Size)
    else
      match scanQuoteLoopAux cs (p + c.utf8Size) with
      | .ok (v, st') => .ok (c :: v, st')
      | .error q => .error q

/-- The loop of `scanQuote` on a lexer state. -/
def scanQuoteLoop (st : Lexer) : Except Nat (List Char × Lexer) :=
  scanQuoteLoopAux st.rest st.pos

/-- `scanQuote`: scan a quoted string starting at the current rune (a `"`).
On success the token value is the raw source slice from the opening quote
through the terminator rune (a closing quote, or a NUL rune, which the Go
loop condition `lex.r > 0` also treats as a terminator).  An illegal escape
yields an error token at the offending rune's byte position; end of input
with no terminator yields an error token at the opening quote's position. -/
def scanQuote (st : Lexer) : Token × Lexer :=
  let startpos := st.pos
  match scanQuoteLoop (next st) with
  | .error p => (⟨.error, "", p⟩, st)
  | .ok (content, st') =>
    match st'.rest with
    | [] => (⟨.error, "", startpos⟩, st')
    | t :: _ =>
      (⟨.quote, String.mk (quoteCh :: content ++ [t]), startpos⟩, next st')

/-- `scanComment`: consume `//` up to (not including) the next newline or
NUL, then step past that terminator rune. -/
def scanComment (st : Lexer) : Token × Lexer :=
  let chars := st.rest.takeWhile (fun c => 0 < c.toNat && c ≠ '\n')
  let st' : Lexer := ⟨st.rest.drop chars.length, st.pos + utf8Len chars⟩
  (⟨.comment, String.mk chars, st.pos⟩, next st')

/-- `NextToken`: skip whitespace and dispatch on the current rune.  An
unrecognized rune yields an error token (without consuming it, as in the Go
code, where `makeErrorToken` does not advance the lexer). -/
def nextToken (st0 : Lexer) : Token × Lexer :=
  let st := skipNontokens st0
  match st.rest with
  | [] => (⟨.eof, "", st.pos⟩, st)
  | c :: rest =>
    match opLookup c with
    | some op =>
      -- `/` may start a `//` comment; `peekNextByte` compares the next
      -- byte with `/`, which for decoded runes is the same as comparing
      -- the next rune with `/` (a multibyte rune's first byte is ≥ 0x80).
      if op = .divide && rest.head? = some '/' then scanComment st
      else (⟨op, String.mk [c], st.pos⟩, next st)
    | none =>
      if isAlphaCh c then scanIdentifier st
      else if isDigitCh c then scanNumber st
      else if c = quoteCh then scanQuote st
      else (⟨.error, "", st.pos⟩, st)

end Lexer

/-- Run the lexer to a token list, ending at the first EOF or error token
(the parser stops requesting tokens there).  Fuel bounds the number of
tokens; `input.length + 1` always suffices since every non-EOF, non-error
token consumes at least one rune. -/
def lexAll : Nat → Lexer → List Token
  | 0, _ => []
  | fuel + 1, st =>
    let (t, st') := Lexer.nextToken st
    match t.tokType with
    | .eof => [t]
    | .error => [t]
    | _ => t :: lexAll fuel st'

/-- Lex a whole input (the decoded rune sequence of the rule file). -/
def lexInput (input : List Char) : List Token :=
  lexAll (input.length + 1) ⟨input, 0⟩

/-! ## Grammar tokens and the `Parser.Lex` mapping of `parse/parser.go` -/

/-- Grammar tokens: the terminal symbols declared by the yacc grammar, with
the literal `Value` carried for `IDENTIFIER` and `QUOTE` (as in `yySymType`;
the other terminals' values are never read by the semantic actions). -/
inductive GTok where
  | ident (v : String)
  | quoteTok (v : String)
  | equals | tilde | semi
  | kwIf | kwMove | kwAnd | kwOr | kwNot | kwThen
  | kwFlag | kwUnflag | kwStream
  | lparen | rparen
  deriving DecidableEq, Repr

/-- The `tokenNumbers` array of `parse/parser.go`, as a partial map into the
grammar terminals.  Token kinds absent from the array (numbers and the
operator kinds the grammar does not use) map to the array's zero value,
modelled as `none`: the generated goyacc driver treats a token number
`<= 0` as end of input. -/
def mapToken (t : Token) : Option GTok :=
  match t.tokType with
  | .identifier => some (.ident t.value)
  | .quote => some (.quoteTok t.value)
  | .equals => some .equals
  | .tilde => some .tilde
  | .semi => some .semi
  | .kwIf => some .kwIf
  | .kwMove => some .kwMove
  | .kwAnd => some .kwAnd
  | .kwOr => some .kwOr
  | .kwNot => some .kwNot
  | .kwThen => some .kwThen
  | .kwFlag => some .kwFlag
  | .kwUnflag => some .kwUnflag
  | .kwStream => some .kwStream
  | .leftParen => some .lparen
  | .rightParen => some .rparen
  | _ => none

/-- `Parser.Lex` as seen by the generated parser: EOF ends the stream
without error; an error token ends the stream and records the lexing
error; comments are skipped; a token kind missing from `tokenNumbers` is
handed to the parser as token number 0, which the goyacc driver treats as
end of input (so the rest of the stream is silently discarded, with no
error recorded). -/
def toGrammarTokens : List Token → List GTok × Option String
  | [] => ([], none)
  | t :: ts =>
    match t.tokType with
    | .eof => ([], none)
    | .error => ([], some ("lexing error: " ++ t.value))
    | .comment => toGrammarTokens ts
    | _ =>
      match mapToken t with
      | some g =>
        let (gs, e) := toGrammarTokens ts
        (g :: gs, e)
      | none => ([], none)

/-! ## The rule AST built by the semantic actions (`rules` package) -/

/-- A string predicate: `StringEqualsPredicate`, or a regex predicate (the
compiled `regexp.Regexp` is modelled by its pattern; compilation success is
an explicit parameter of the parser, and matching an explicit parameter of
the engine). -/
inductive StringPred where
  | equalsP (s : String)
  | regexP (pattern : String)
  deriving DecidableEq, Repr

/-- The predicate tree: `FieldPredicate`, `AndPredicate`, `OrPredicate`,
`NotPredicate`. -/
inductive Predicate where
  | fieldP (field : String) (sp : StringPred)
  | andP (left right : Predicate)
  | orP (left right : Predicate)
  | notP (inner : Predicate)
  deriving DecidableEq, Repr

/-- `NewFieldPredicate`: only `to`, `from` and `subject` are accepted. -/
def newFieldPredicate (field : String) (sp : StringPred) : Except String Predicate :=
  if field = "to" || field = "from" || field = "subject" then
    .ok (.fieldP field sp)
  else
    .error ("unknown field " ++ field)

/-- `imap.FlaggedFlag`, the default flag of `NewFlagRule`/`NewUnflagRule`. -/
def flaggedFlag : String := "\\Flagged"

/-- A parsed rule as produced by the grammar's semantic actions: each
constructor corresponds to `NewMoveRule` / `NewFlagRule` / `NewUnflagRule` /
`NewStreamRule`, with the predicate field initially `none` (the actions pass
`nil`) and assigned by the `rule` production. -/
inductive ParsedRule where
  | moveR (predicate : Option Predicate) (mailbox : String)
  | flagR (predicate : Option Predicate) (flag : String)
  | unflagR (predicate : Option Predicate) (flag : String)
  | streamR (predicate : Option Predicate) (command : String)
  deriving DecidableEq, Repr

/-- The assignment `$4.Predicate = $2` of the `rule` productions. -/
def ParsedRule.withPredicate : ParsedRule → Predicate → ParsedRule
  | .moveR _ m, p => .moveR (some p) m
  | .flagR _ f, p => .flagR (some p) f
  | .unflagR _ f, p => .unflagR (some p) f
  | .streamR _ c, p => .streamR (some p) c

/-- `NewFlagRule(nil, flag)`: an empty flag name falls back to the default
system flag. -/
def mkFlagRule (flag : String) : ParsedRule :=
  .flagR none (if flag = "" then flaggedFlag else flag)

/-- `NewUnflagRule(nil, flag)`. -/
def mkUnflagRule (flag : String) : ParsedRule :=
  .unflagR none (if flag = "" then flaggedFlag else flag)

/-! ## String-literal processing of the semantic actions -/

/-- `strings.ReplaceAll` specialised to a two-character pattern replaced by
one character: leftmost-first, non-overlapping, as in Go. -/
def replacePairAux (a b c : Char) : Nat → List Char → List Char
  | 0, l => l
  | _ + 1, [] => []
  | fuel + 1, x :: rest =>
    if x = a then
      match rest with
      | y :: rest2 =>
        if y = b then c :: replacePairAux a b c fuel rest2
        else x :: replacePairAux a b c fuel (y :: rest2)
      | [] => [x]
    else x :: replacePairAux a b c fuel rest

/-- `strings.ReplaceAll` on a two-character pattern (see `replacePairAux`;
the fuel is an upper bound on the scan steps and never runs out). -/
def replacePair (a b c : Char) (l : List Char) : List Char :=
  replacePairAux a b c l.length l

/-- `$1[1:len($1)-1]`: strip the first and last byte of a raw `QUOTE` token
(the opening quote and the terminator, both single-byte runes). -/
def stripQuotes (raw : String) : String :=
  String.mk (raw.data.drop 1).dropLast

/-- The `string` production of the `stream`-capable grammar: strip the
surrounding quotes, then
`strings.ReplaceAll(strings.ReplaceAll(s, "\\\"", "\""), "\\\\", "\\")`. -/
def goStringOf (raw : String) : String :=
  String.mk (replacePair backslashCh backslashCh backslashCh
    (replacePair backslashCh quoteCh quoteCh (stripQuotes raw).data))

/-! ## The parser denoted by the `stream`-capable grammar

The grammar declares `%left AND OR` (one shared precedence level,
left-associative) and `%right NOT` (higher precedence).  These precedence
declarations resolve all shift/reduce conflicts of the ambiguous
`condition` productions: after `condition AND|OR condition` the parser
reduces on a following `AND`/`OR` (left associativity), and after
`NOT condition` it reduces on a following `AND`/`OR` (`NOT` binds
tighter).  Hence a condition is a left-associated chain of units separated
by `and`/`or`, where a unit is a comparison, `not` applied to a unit, or a
parenthesised condition.  Regex compilation (`regexp.Compile`) is an
external collaborator, abstracted as the success predicate `cOk`; a
compiled regex is modelled by its pattern string.  A failing semantic
action calls `yylex.Error(...)` and aborts the parse (`return -1`), which
is modelled by `Except.error`; a syntax error likewise sets the parser
error.  The fuel argument only guards recursion and is chosen large enough
in `yaccParse`. -/

mutual

/-- A `comparison`: `IDENTIFIER TILDE string` or `IDENTIFIER EQUALS string`
with the semantic actions (regex compilation, `NewFieldPredicate`). -/
def parseComparison (cOk : String → Bool) : List GTok → Except String (Predicate × List GTok)
  | .ident fld :: .tilde :: .quoteTok raw :: ts =>
    let pat := goStringOf raw
    if cOk pat then
      match newFieldPredicate fld (.regexP pat) with
      | .ok p => .ok (p, ts)
      | .error e => .error e
    else .error ("malformed regex " ++ pat ++ " in predicate")
  | .ident fld :: .equals :: .quoteTok raw :: ts =>
    match newFieldPredicate fld (.equalsP (goStringOf raw)) with
    | .ok p => .ok (p, ts)
    | .error e => .error e
  | _ => .error ("syntax error")

/-- A unit: a comparison, `NOT` applied to a unit, or a parenthesised
condition (see the precedence analysis above). -/
def parseUnit (cOk : String → Bool) : Nat → List GTok → Except String (Predicate × List GTok)
  | 0, _ => .error ("syntax error")
  | fuel + 1, .kwNot :: ts =>
    match parseUnit cOk fuel ts with
    | .ok (p, r) => .ok (.notP p, r)
    | .error e => .error e
  | fuel + 1, .lparen :: ts =>
    match parseCondition cOk fuel ts with
    | .ok (p, .rparen :: r) => .ok (p, r)
    | .ok (_, _) => .error ("syntax error")
    | .error e => .error e
  | _ + 1, ts => parseComparison cOk ts

/-- A `condition`: a unit followed by a left-folded chain of
`AND`/`OR` units. -/
def parseCondition (cOk : String → Bool) : Nat → List GTok → Except String (Predicate × List GTok)
  | 0, _ => .error ("syntax error")
  | fuel + 1, ts =>
    match parseUnit cOk fuel ts with
    | .ok (p, r) => condLoop cOk fuel p r
    | .error e => .error e

/-- The left-fold of `condition (AND|OR) condition` chains. -/
def condLoop (cOk : String → Bool) : Nat → Predicate → List GTok → Except String (Predicate × List GTok)
  | 0, _, _ => .error ("syntax error")
  | fuel + 1, acc, .kwAnd :: ts =>
    match parseUnit cOk fuel ts with
    | .ok (p, r) => condLoop cOk fuel (.andP acc p) r
    | .error e => .error e
  | fuel + 1, acc, .kwOr :: ts =>
    match parseUnit cOk fuel ts with
    | .ok (p, r) => condLoop cOk fuel (.orP acc p) r
    | .error e => .error e
  | _ + 1, acc, ts => .ok (acc, ts)

end

/-- The action productions `move`, `flag`, `unflag`, `stream` with their
semantic actions (one token of lookahead decides the optional `string` of
`flag`/`unflag`, exactly as the LALR tables do). -/
def parseAction : List GTok → Except String (ParsedRule × List GTok)
  | .kwMove :: .quoteTok raw :: ts => .ok (.moveR none (goStringOf raw), ts)
  | .kwFlag :: .quoteTok raw :: ts => .ok (mkFlagRule (goStringOf raw), ts)
  | .kwFlag :: ts => .ok (mkFlagRule "", ts)
  | .kwUnflag :: .quoteTok raw :: ts => .ok (mkUnflagRule (goStringOf raw), ts)
  | .kwUnflag :: ts => .ok (mkUnflagRule "", ts)
  | .kwStream :: .quoteTok raw :: ts => .ok (.streamR none (goStringOf raw), ts)
  | _ => .error ("syntax error")

/-- The `rule` production: `IF condition THEN action`, assigning the parsed
condition to the action's rule. -/
def parseRule (cOk : String → Bool) (fuel : Nat) : List GTok → Except String (ParsedRule × List GTok)
  | .kwIf :: ts =>
    match parseCondition cOk fuel ts with
    | .ok (cond, .kwThen :: ts2) =>
      match parseAction ts2 with
      | .ok (act, ts3) => .ok (act.withPredicate cond, ts3)
      | .error e => .error e
    | .ok (_, _) => .error ("syntax error")
    | .error e => .error e
  | _ => .error ("syntax error")

/-- The `rules` production: one or more `rule SEMICOLON`, consuming the
whole token stream (the start symbol is accepted exactly at end of
input). -/
def parseRulesLoop (cOk : String → Bool) (fuel : Nat) : Nat → List GTok → Except String (List ParsedRule)
  | 0, _ => .error ("syntax error")
  | n + 1, ts =>
    match parseRule cOk fuel ts with
    | .ok (r, .semi :: ts2) =>
      if ts2.isEmpty then .ok [r]
      else
        match parseRulesLoop cOk fuel n ts2 with
        | .ok rs => .ok (r :: rs)
        | .error e => .error e
    | .ok (_, _) => .error ("syntax error")
    | .error e => .error e

/-- `yyParse` for the `stream`-capable grammar, on a grammar-token stream:
on success `p.result` is the complete rule list; on any error nothing is
assigned to `p.result` (the start symbol is never reduced).  The fuel
bounds are sufficient for any input (each unit of fuel spent by
`parseCondition`/`condLoop` accompanies the consumption of at least one
token every two steps). -/
def yaccParse (cOk : String → Bool) (gtoks : List GTok) : Except String (List ParsedRule) :=
  parseRulesLoop cOk (2 * gtoks.length + 4) (gtoks.length + 1) gtoks

/-- `parse.Parse` composed with `Parser.Parse` (`parse/parser.go`): lex the
input, map tokens through `tokenNumbers`, run the generated parser, then
return `(nil, err)` if any error was recorded and `(result, nil)`
otherwise.  A syntax or semantic parse error overwrites a previously
recorded lexing error, as the later `p.Error` assignment does in Go. -/
def ParseGo (cOk : String → Bool) (input : List Char) : Option (List ParsedRule) × Option String :=
  let (gtoks, lexErr) := toGrammarTokens (lexInput input)
  match yaccParse cOk gtoks, lexErr with
  | .error e, _ => (none, some e)
  | .ok _, some le => (none, some le)
  | .ok rs, none => (some rs, none)

/-! ## The parser denoted by `parse/rules.y`

`parse/rules.y` declares the same `condition` grammar and precedences but
has no `stream` action (no `STREAM` terminal at all, so a `stream` token
reaching this parser is an unknown token and produces a syntax error), and
its semantic actions use the raw `QUOTE` value with only the surrounding
quotes stripped (`$3[1:len($3)-1]`), performing no unescaping. -/

mutual

/-- `comparison` of `parse/rules.y`: as `parseComparison` but with
quote-stripped raw literals. -/
def parseComparisonY (cOk : String → Bool) : List GTok → Except String (Predicate × List GTok)
  | .ident fld :: .tilde :: .quoteTok raw :: ts =>
    let pat := stripQuotes raw
    if cOk pat then
      match newFieldPredicate fld (.regexP pat) with
      | .ok p => .ok (p, ts)
      | .error e => .error e
    else .error ("malformed regex " ++ pat ++ " in predicate")
  | .ident fld :: .equals :: .quoteTok raw :: ts =>
    match newFieldPredicate fld (.equalsP (stripQuotes raw)) with
    | .ok p => .ok (p, ts)
    | .error e => .error e
  | _ => .error ("syntax error")

/-- Unit of `parse/rules.y` conditions. -/
def parseUnitY (cOk : String → Bool) : Nat → List GTok → Except String (Predicate × List GTok)
  | 0, _ => .error ("syntax error")
  | fuel + 1, .kwNot :: ts =>
    match parseUnitY cOk fuel ts with
    | .ok (p, r) => .ok (.notP p, r)
    | .error e => .error e
  | fuel + 1, .lparen :: ts =>
    match parseConditionY cOk fuel ts with
    | .ok (p, .rparen :: r) => .ok (p, r)
    | .ok (_, _) => .error ("syntax error")
    | .error e => .error e
  | _ + 1, ts => parseComparisonY cOk ts

/-- `condition` of `parse/rules.y`. -/
def parseConditionY (cOk : String → Bool) : Nat → List GTok → Except String (Predicate × List GTok)
  | 0, _ => .error ("syntax error")
  | fuel + 1, ts =>
    match parseUnitY cOk fuel ts with
    | .ok (p, r) => condLoopY cOk fuel p r
    | .error e => .error e

/-- Left-fold of `and`/`or` chains for `parse/rules.y`. -/
def condLoopY (cOk : String → Bool) : Nat → Predicate → List GTok → Except String (Predicate × List GTok)
  | 0, _, _ => .error ("syntax error")
  | fuel + 1, acc, .kwAnd :: ts =>
    match parseUnitY cOk fuel ts with
    | .ok (p, r) => condLoopY cOk fuel (.andP acc p) r
    | .error e => .error e
  | fuel + 1, acc, .kwOr :: ts =>
    match parseUnitY cOk fuel ts with
    | .ok (p, r) => condLoopY cOk fuel (.orP acc p) r
    | .error e => .error e
  | _ + 1, acc, ts => .ok (acc, ts)

end

/-- Actions of `parse/rules.y`: `move`, `flag`, `unflag` only, with
quote-stripped literals. -/
def parseActionY : List GTok → Except String (ParsedRule × List GTok)
  | .kwMove :: .quoteTok raw :: ts => .ok (.moveR none (stripQuotes raw), ts)
  | .kwFlag :: .quoteTok raw :: ts => .ok (mkFlagRule (stripQuotes raw), ts)
  | .kwFlag :: ts => .ok (mkFlagRule "", ts)
  | .kwUnflag :: .quoteTok raw :: ts => .ok (mkUnflagRule (stripQuotes raw), ts)
  | .kwUnflag :: ts => .ok (mkUnflagRule "", ts)
  | _ => .error ("syntax error")

/-- `rule` of `parse/rules.y`. -/
def parseRuleY (cOk : String → Bool) (fuel : Nat) : List GTok → Except String (ParsedRule × List GTok)
  | .kwIf :: ts =>
    match parseConditionY cOk fuel ts with
    | .ok (cond, .kwThen :: ts2) =>
      match parseActionY ts2 with
      | .ok (act, ts3) => .ok (act.withPredicate cond, ts3)
      | .error e => .error e
    | .ok (_, _) => .error ("syntax error")
    | .error e => .error e
  | _ => .error ("syntax error")

/-- `rules` of `parse/rules.y`. -/
def parseRulesLoopY (cOk : String → Bool) (fuel : Nat) : Nat → List GTok → Except String (List ParsedRule)
  | 0, _ => .error ("syntax error")
  | n + 1, ts =>
    match parseRuleY cOk fuel ts with
    | .ok (r, .semi :: ts2) =>
      if ts2.isEmpty then .ok [r]
      else
        match parseRulesLoopY cOk fuel n ts2 with
        | .ok rs => .ok (r :: rs)
        | .error e => .error e
    | .ok (_, _) => .error ("syntax error")
    | .error e => .error e

/-- `yyParse` for `parse/rules.y`. -/
def yaccParseY (cOk : String → Bool) (gtoks : List GTok) : Except String (List ParsedRule) :=
  parseRulesLoopY cOk (2 * gtoks.length + 4) (gtoks.length + 1) gtoks

/-- The whole-text parser built from `parse/rules.y` with the same lexer
and token mapping. -/
def ParseGoY (cOk : String → Bool) (input : List Char) : Option (List ParsedRule) × Option String :=
  let (gtoks, lexErr) := toGrammarTokens (lexInput input)
  match yaccParseY cOk gtoks, lexErr with
  | .error e, _ => (none, some e)
  | .ok _, some le => (none, some le)
  | .ok rs, none => (some rs, none)

/-! ## Predicate evaluation and the rule engine of `rules/rules.go`

Messages carry the envelope fields the predicates read plus the flag list
and UID.  `regexp` matching is an external collaborator, abstracted as a
parameter `rm : String → String → Bool` (pattern, subject).  The IMAP
client is abstracted: each `Action` returns, besides the updated rule, the
trace of requests issued to the client and the propagated result; the
client's answer to a request is an explicit parameter. -/

/-- The envelope/flags/UID slice of `imap.Message` that the engine reads. -/
structure ImapMessage where
  uid : Nat
  flags : List String
  toAddrs : List String
  fromAddrs : List String
  subject : String
  deriving DecidableEq, Repr

/-- `StringPredicate.MatchString`. -/
def strPredMatch (rm : String → String → Bool) : StringPred → String → Bool
  | .equalsP p, s => p = s
  | .regexP pat, s => rm pat s

/-- `MatchMessage`: `FieldPredicate` matches `to`/`from` if any address in
the header list satisfies the string predicate, `subject` against the
single subject; the boolean combinators are pure. -/
def predMatch (rm : String → String → Bool) : Predicate → ImapMessage → Bool
  | .fieldP f sp, m =>
    if f = "to" then m.toAddrs.any (strPredMatch rm sp)
    else if f = "from" then m.fromAddrs.any (strPredMatch rm sp)
    else if f = "subject" then strPredMatch rm sp m.subject
    else false
  | .andP l r, m => predMatch rm l m && predMatch rm r m
  | .orP l r, m => predMatch rm l m || predMatch rm r m
  | .notP p, m => !predMatch rm p m

/-- A request issued to the IMAP client collaborator. -/
inductive ClientRequest where
  | uidMove (uids : Finset Nat) (mailbox : String)
  | uidStore (uids : Finset Nat) (addFlags : Bool) (flag : String)
  | uidFetch (uids : Finset Nat)
  deriving DecidableEq

/-- Whether a client request mutates the mailbox (`UidMove`/`UidStore`)
rather than reading it (`UidFetch`). -/
def isMutation : ClientRequest → Bool
  | .uidFetch _ => false
  | _ => true

/-- The UID set carried by a client request. -/
def requestUids : ClientRequest → Finset Nat
  | .uidMove u _ => u
  | .uidStore u _ _ => u
  | .uidFetch u => u

/-- `MoveRule`: predicate, destination mailbox, pending `imap.SeqSet`
(modelled as a `Finset` of UIDs). -/
structure MoveRule where
  predicate : Predicate
  mailbox : String
  messages : Finset Nat
  deriving DecidableEq

/-- `FlagRule`. -/
structure FlagRule where
  predicate : Predicate
  flag : String
  messages : Finset Nat
  deriving DecidableEq

/-- `UnflagRule`. -/
structure UnflagRule where
  predicate : Predicate
  flag : String
  messages : Finset Nat
  deriving DecidableEq

/-- `StreamRule` of `rules/rules.go`: predicate, shell command, pending
set. -/
structure StreamRule where
  predicate : Predicate
  command : String
  messages : Finset Nat
  deriving DecidableEq

/-- `MoveRule.Message`: add the UID to the pending set if the predicate
matches. -/
def MoveRule.message (rm : String → String → Bool) (r : MoveRule) (m : ImapMessage) : MoveRule :=
  if predMatch rm r.predicate m then { r with messages := insert m.uid r.messages } else r

/-- `FlagRule.Message`: skip a message already carrying the flag, else add
the UID if the predicate matches. -/
def FlagRule.message (rm : String → String → Bool) (r : FlagRule) (m : ImapMessage) : FlagRule :=
  if r.flag ∈ m.flags then r
  else if predMatch rm r.predicate m then { r with messages := insert m.uid r.messages } else r

/-- `UnflagRule.Message`: the same early return on a message already
carrying the flag, else add the UID if the predicate matches. -/
def UnflagRule.message (rm : String → String → Bool) (r : UnflagRule) (m : ImapMessage) : UnflagRule :=
  if r.flag ∈ m.flags then r
  else if predMatch rm r.predicate m then { r with messages := insert m.uid r.messages } else r

/-- `StreamRule.Message` of `rules/rules.go` (no done set in this
variant). -/
def StreamRule.message (rm : String → String → Bool) (r : StreamRule) (m : ImapMessage) : StreamRule :=
  if predMatch rm r.predicate m then { r with messages := insert m.uid r.messages } else r

/-- `MoveRule.Action`: swap the pending set for a fresh one; nothing to do
when empty, else one `UidMove` for the whole set, wrapping a client error.
`resp` is the client's answer to the issued request. -/
def MoveRule.action (r : MoveRule) (resp : Except String Unit) :
    MoveRule × List ClientRequest × Except String Unit :=
  let msgs := r.messages
  let r' := { r with messages := (∅ : Finset Nat) }
  if msgs = ∅ then (r', [], .ok ())
  else
    (r', [.uidMove msgs r.mailbox],
      match resp with
      | .ok () => .ok ()
      | .error e => .error ("move messages to mailbox " ++ r.mailbox ++ ": " ++ e))

/-- `FlagRule.Action`: one `UidStore` adding the flag to the whole set. -/
def FlagRule.action (r : FlagRule) (resp : Except String Unit) :
    FlagRule × List ClientRequest × Except String Unit :=
  let msgs := r.messages
  let r' := { r with messages := (∅ : Finset Nat) }
  if msgs = ∅ then (r', [], .ok ())
  else
    (r', [.uidStore msgs true r.flag],
      match resp with
      | .ok () => .ok ()
      | .error e => .error ("flag messages with " ++ r.flag ++ ": " ++ e))

/-- `UnflagRule.Action`: one `UidStore` removing the flag from the whole
set. -/
def UnflagRule.action (r : UnflagRule) (resp : Except String Unit) :
    UnflagRule × List ClientRequest × Except String Unit :=
  let msgs := r.messages
  let r' := { r with messages := (∅ : Finset Nat) }
  if msgs = ∅ then (r', [], .ok ())
  else
    (r', [.uidStore msgs false r.flag],
      match resp with
      | .ok () => .ok ()
      | .error e => .error ("unflag messages with " ++ r.flag ++ ": " ++ e))

/-- `StreamRule.Action` of `rules/rules.go`: swap the pending set; nothing
to do when empty, else one batched `UidFetch` of the whole set, after which
each fetched message is piped individually to the configured shell command
(an external collaborator, not an IMAP-client request; its per-message
failures are collected into `deliveryErrs`).  The result is the joined
delivery errors if any, else the fetch's own completion status. -/
def StreamRule.action (r : StreamRule) (fetchResp : Except String Unit)
    (deliveryErrs : List String) :
    StreamRule × List ClientRequest × Except String Unit :=
  let msgs := r.messages
  let r' := { r with messages := (∅ : Finset Nat) }
  if msgs = ∅ then (r', [], .ok ())
  else
    (r', [.uidFetch msgs],
      if deliveryErrs ≠ [] then .error (String.intercalate "\n" deliveryErrs)
      else
        match fetchResp with
        | .ok () => .ok ()
        | .error e => .error ("stream messages to " ++ r.command ++ ": " ++ e))

/-! ## The README variant of `StreamRule` (HTTP sink, done set) -/

/-- The README variant of `StreamRule`: content kind, target URL, pending
set and the monotone `done` set of UIDs already taken for a delivery
pass. -/
structure StreamRuleH where
  predicate : Predicate
  content : String
  url : String
  messages : Finset Nat
  done : Finset Nat
  deriving DecidableEq

/-- `NewStreamRule(predicate, content, url)`: fresh empty pending and done
sets. -/
def newStreamRuleH (p : Predicate) (content url : String) : StreamRuleH :=
  ⟨p, content, url, ∅, ∅⟩

/-- `StreamRule.Message` (README variant): skip a message whose UID is in
the done set, else add it to the pending set if the predicate matches. -/
def StreamRuleH.message (rm : String → String → Bool) (r : StreamRuleH) (m : ImapMessage) : StreamRuleH :=
  if m.uid ∈ r.done then r
  else if predMatch rm r.predicate m then { r with messages := insert m.uid r.messages } else r

/-- `StreamRule.Action` (README variant): swap out the pending set, add it
to the done set (`r.done.AddSet(msgs)`) before anything else — in
particular before the batch fetch and the per-message HTTP deliveries —
then, if the swapped-out set is nonempty, attempt one delivery per UID.
`deliver` gives each attempt's outcome; failed attempts are only logged and
do not change any rule state, so the resulting state does not depend on
`deliver`. -/
def StreamRuleH.action (deliver : Nat → Bool) (r : StreamRuleH) :
    StreamRuleH × List (Nat × Bool) :=
  let msgs := r.messages
  let r' := { r with messages := (∅ : Finset Nat), done := r.done ∪ msgs }
  if msgs = ∅ then (r', [])
  else (r', (msgs.sort (· ≤ ·)).map (fun u => (u, deliver u)))

/-- One engine step on a README stream rule: a match-phase call
(`Message`) or an action-phase call (`Action`) with its delivery
outcomes. -/
inductive StreamOp where
  | msgOp (m : ImapMessage)
  | actOp (deliver : Nat → Bool)

/-- Run a sequence of engine steps on a README stream rule (any number of
scans: a scan is some `msgOp`s followed by an `actOp`). -/
def StreamRuleH.run (rm : String → String → Bool) : List StreamOp → StreamRuleH → StreamRuleH
  | [], r => r
  | .msgOp m :: ops, r => StreamRuleH.run rm ops (r.message rm m)
  | .actOp d :: ops, r => StreamRuleH.run rm ops (r.action d).1

/-! ## `messageMIME` and the HTTP status guard -/

/-- A MIME part as read by `messageMIME`: the two headers it consults
(`none` models an absent header; `Header.Get` returns the empty string
then). -/
structure MIMEPart where
  contentType : Option String
  transferEncoding : Option String
  deriving DecidableEq, Repr

/-- The slice of `mail.Message` that `messageMIME` reads: the top-level
`Content-Type` header and the multipart body, modelled as the part
sequence the `multipart.Reader` would yield (each `NextPart` in order;
running out of parts is the reader's terminal error). -/
structure MailMsg where
  contentType : Option String
  parts : List MIMEPart
  deriving DecidableEq, Repr

/-- The reader returned for the matched part: a base64 decoder, a
quoted-printable decoder, or the part as-is. -/
inductive PartReader where
  | base64Reader (p : MIMEPart)
  | quotedPrintableReader (p : MIMEPart)
  | plainReader (p : MIMEPart)
  deriving DecidableEq, Repr

/-- `Header.Get`: an absent header reads as the empty string. -/
def headerGet (h : Option String) : String := h.getD ""

/-- `strings.ToLower` (per-rune lowercasing; the values compared against
are ASCII, for which `Char.toLower` agrees with Go). -/
def toLowerStr (s : String) : String := String.mk (s.data.map Char.toLower)

/-- `strings.HasPrefix`. -/
def hasPrefixStr (s p : String) : Bool := List.isPrefixOf p.data s.data

/-- The `NextPart` loop of `messageMIME`: walk the parts in order; parse
each part's content type (`pmt` abstracts `mime.ParseMediaType`, returning
the media type); on the first part whose media type equals the target,
switch on the lowercased `Content-Transfer-Encoding` header; running out of
parts surfaces the reader's error. -/
def findPart (pmt : String → Except String String) (contentType : String) :
    List MIMEPart → Except String PartReader
  | [] => .error ("could not find " ++ contentType ++ " part of message")
  | part :: rest =>
    match pmt (headerGet part.contentType) with
    | .error e => .error ("parse multipart message part content type: " ++ e)
    | .ok mediaType =>
      if mediaType = contentType then
        .ok (match toLowerStr (headerGet part.transferEncoding) with
             | "base64" => .base64Reader part
             | "quoted-printable" => .quotedPrintableReader part
             | _ => .plainReader part)
      else findPart pmt contentType rest

/-- `messageMIME`: parse the top-level content type; a non-`multipart/`
media type fails with a descriptive error; otherwise walk the parts for the
requested content type. -/
def messageMIME (pmt : String → Except String String) (msg : MailMsg)
    (contentType : String) : Except String PartReader :=
  match pmt (headerGet msg.contentType) with
  | .error e => .error ("parse message content type: " ++ e)
  | .ok mediaType =>
    if !hasPrefixStr mediaType ("multipart/") then
      .error ("expected multipart message but found " ++ mediaType)
    else findPart pmt contentType msg.parts

/-- The response-status guard of `StreamRule.handleMessage` (README
variant), in both the `rfc822` and the `html` branches:
`resp.StatusCode < 200 && resp.StatusCode >= 300`. -/
def statusGuardGo (statusCode : Int) : Bool :=
  decide (statusCode < 200) && decide (statusCode ≥ 300)

/-- The status handling of `handleMessage` after a successful `Do`: error
response if the guard holds, success otherwise. -/
def handleMessageStatus (statusCode : Int) : Except String Unit :=
  if statusGuardGo statusCode then .error ("error response") else .ok ()

/-! ## Specification-side helper data -/

/-- One well-formed item of a quoted-string body: an ordinary character or
one of the two legal escape sequences. -/
inductive QUnit where
  | ch (c : Char)
  | escQuote
  | escBackslash
  deriving DecidableEq, Repr

/-- The source characters of a body item. -/
def QUnit.flat : QUnit → List Char
  | .ch c => [c]
  | .escQuote => [backslashCh, quoteCh]
  | .escBackslash => [backslashCh, backslashCh]

/-- A `ch` item must be an ordinary character: not a quote, not a
backslash, not NUL. -/
def QUnit.good : QUnit → Bool
  | .ch c => c ≠ quoteCh && c ≠ backslashCh && c.toNat ≠ 0
  | _ => true

/-- The source characters of a whole body. -/
def flatBody (us : List QUnit) : List Char := us.flatMap QUnit.flat

/-- Grammar tokens on which the two yacc grammars cannot be told apart: no
`stream` keyword and no backslash inside a quoted literal. -/
def gOKb : GTok → Bool
  | .kwStream => false
  | .quoteTok v => !v.data.contains backslashCh
  | _ => true

/-! ## Helper lemmas -/

/-- Preservation of pending/done disjointness by a single engine step on
the README stream rule. -/
theorem streamRuleH_step_disjoint (rm : String → String → Bool) (r : StreamRuleH) :
    r.messages ∩ r.done = ∅ →
      (∀ m, (r.message rm m).messages ∩ (r.message rm m).done = ∅) ∧
      (∀ d, (r.action d).1.messages ∩ (r.action d).1.done = ∅) := by
  intro hdisj
  constructor
  · intro m
    unfold StreamRuleH.message
    by_cases hdone : m.uid ∈ r.done
    · simp [hdone, hdisj]
    · by_cases hmatch : predMatch rm r.predicate m
      · simp [hdone, hmatch]
        exact hdisj
      · simp [hdone, hmatch, hdisj]
  · intro d
    unfold StreamRuleH.action
    by_cases hempty : r.messages = ∅ <;> simp [hempty]

/-- Pending/done disjointness holds after any run of engine steps from a
disjoint initial state. -/
theorem streamRuleH_run_disjoint (rm : String → String → Bool) (ops : List StreamOp)
    (r : StreamRuleH) (h : r.messages ∩ r.done = ∅) :
    (StreamRuleH.run rm ops r).messages ∩ (StreamRuleH.run rm ops r).done = ∅ := by
  induction ops generalizing r with
  | nil => exact h
  | cons op ops ih =>
    cases op with
    | msgOp m => exact ih _ ((streamRuleH_step_disjoint rm r h).1 m)
    | actOp d => exact ih _ ((streamRuleH_step_disjoint rm r h).2 d)

/-! ## Claims -/

/-- C1: a README `StreamRule` never adds to its pending set a UID already
in its done set (the `Message` step is a no-op for such a message,
whatever the predicate says); the `Action` step adds the whole swapped-out
pending set to the done set at the moment of the swap, before and
independently of the delivery attempts (the resulting state does not
depend on the delivery outcomes `d`), leaving the pending set empty; and
across any number of scans starting from a freshly constructed rule the
pending and done sets stay disjoint, so a UID in the done set is never in
the pending set. -/
theorem streamRule_done_set_semantics (rm : String → String → Bool)
    (r : StreamRuleH) (m : ImapMessage) (d : Nat → Bool) (ops : List StreamOp)
    (p : Predicate) (content url : String) :
    (m.uid ∈ r.done → r.message rm m = r) ∧
    ((r.action d).1.messages = ∅) ∧
    ((r.action d).1.done = r.done ∪ r.messages) ∧
    ((StreamRuleH.run rm ops (newStreamRuleH p content url)).messages ∩
      (StreamRuleH.run rm ops (newStreamRuleH p content url)).done = ∅) := by
  refine ⟨?_, ?_, ?_, ?_⟩
  · intro hdone
    unfold StreamRuleH.message
    simp [hdone]
  · unfold StreamRuleH.action
    by_cases hempty : r.messages = ∅ <;> simp [hempty]
  · unfold StreamRuleH.action
    by_cases hempty : r.messages = ∅ <;> simp [hempty]
  · exact streamRuleH_run_disjoint rm ops _ (by simp [newStreamRuleH])

/-- C1 witness: a concrete rule whose done set contains UID 5 ignores a
matching message with UID 5, and the action/run clauses evaluated at
concrete inputs. -/
theorem streamRule_done_set_semantics_witness :
    (5 ∈ (⟨.fieldP "to" (.equalsP "x"), "html", "u", ∅, {5}⟩ : StreamRuleH).done) ∧
    (StreamRuleH.message (fun _ _ => true)
        ⟨.fieldP "to" (.equalsP "x"), "html", "u", ∅, {5}⟩ ⟨5, [], ["x"], [], "s"⟩ =
      ⟨.fieldP "to" (.equalsP "x"), "html", "u", ∅, {5}⟩) ∧
    ((StreamRuleH.action (fun _ => true)
        ⟨.fieldP "to" (.equalsP "x"), "html", "u", {7}, {5}⟩).1.done = {5} ∪ {7}) :=
  ⟨by decide,
   (streamRule_done_set_semantics (fun _ _ => true)
      ⟨.fieldP "to" (.equalsP "x"), "html", "u", ∅, {5}⟩ ⟨5, [], ["x"], [], "s"⟩
      (fun _ => true) [] (.fieldP "to" (.equalsP "x")) "html" "u").1 (by decide),
   (streamRule_done_set_semantics (fun _ _ => true)
      ⟨.fieldP "to" (.equalsP "x"), "html", "u", {7}, {5}⟩ ⟨5, [], ["x"], [], "s"⟩
      (fun _ => true) [] (.fieldP "to" (.equalsP "x")) "html" "u").2.2.1⟩

/-- C2 counterexample: the claim's literal rule text uses field names `a`,
`b`, `c`, which `NewFieldPredicate` rejects at parse time, so `Parse`
returns no rules at all rather than a flag rule. -/
theorem parse_abc_fields_rejected :
    (ParseGo (fun _ => true)
      (("if a = \"x\" or b = \"y\" and c = \"z\" then flag;").data)).1 = none := by
  rfl

/-- C2 amended: with the valid field names `to`, `from`, `subject` in place
of `a`, `b`, `c`, the rule text parses into a single flag rule whose
condition groups as `(to or from) and subject` — an `And` node whose left
child is the `Or` of the first two comparisons and whose right child is
the third comparison (for any regex-compilation oracle; the input contains
no regex literal). -/
theorem parse_or_and_left_assoc (cOk : String → Bool) :
    ParseGo cOk (("if to = \"x\" or from = \"y\" and subject = \"z\" then flag;").data) =
      (some [ParsedRule.flagR
        (some (.andP (.orP (.fieldP "to" (.equalsP "x")) (.fieldP "from" (.equalsP "y")))
          (.fieldP "subject" (.equalsP "z")))) flaggedFlag], none) := by
  rfl

/-- C4: for a message already carrying the rule's flag, the `Message` step
of a flag rule and of an unflag rule returns the rule unchanged — the
pending set is not touched, whatever the predicate would say — and
consequently the subsequent action issues no request mentioning that
message's UID (provided it was not already pending from another
message). -/
theorem flag_unflag_skip_flagged (rm : String → String → Bool)
    (fr : FlagRule) (ur : UnflagRule) (m : ImapMessage) (resp : Except String Unit) :
    (fr.flag ∈ m.flags → FlagRule.message rm fr m = fr) ∧
    (ur.flag ∈ m.flags → UnflagRule.message rm ur m = ur) ∧
    (fr.flag ∈ m.flags → m.uid ∉ fr.messages →
      ∀ q ∈ (FlagRule.action (FlagRule.message rm fr m) resp).2.1, m.uid ∉ requestUids q) := by
  refine ⟨?_, ?_, ?_⟩
  · intro hf
    unfold FlagRule.message
    simp [hf]
  · intro hf
    unfold UnflagRule.message
    simp [hf]
  · intro hf hpend q hq
    unfold FlagRule.message at hq
    simp [hf] at hq
    unfold FlagRule.action at hq
    by_cases hempty : fr.messages = ∅
    · simp [hempty] at hq
    · simp [hempty] at hq
      subst hq
      simpa [requestUids] using hpend

/-- C4 witness: a concrete flag rule and a concrete unflag rule skip a
message already carrying their flag, and the action's requests avoid its
UID. -/
theorem flag_unflag_skip_flagged_witness :
    (FlagRule.message (fun _ _ => true) ⟨.fieldP "to" (.equalsP "x"), "F", {9}⟩
        ⟨3, ["F"], ["x"], [], "s"⟩ = ⟨.fieldP "to" (.equalsP "x"), "F", {9}⟩) ∧
    (UnflagRule.message (fun _ _ => true) ⟨.fieldP "to" (.equalsP "x"), "F", ∅⟩
        ⟨3, ["F"], ["x"], [], "s"⟩ = ⟨.fieldP "to" (.equalsP "x"), "F", ∅⟩) ∧
    (∀ q ∈ (FlagRule.action
        (FlagRule.message (fun _ _ => true) ⟨.fieldP "to" (.equalsP "x"), "F", {9}⟩
          ⟨3, ["F"], ["x"], [], "s"⟩) (.ok ())).2.1, (3 : Nat) ∉ requestUids q) :=
  ⟨(flag_unflag_skip_flagged (fun _ _ => true) ⟨.fieldP "to" (.equalsP "x"), "F", {9}⟩
      ⟨.fieldP "to" (.equalsP "x"), "F", ∅⟩ ⟨3, ["F"], ["x"], [], "s"⟩ (.ok ())).1 (by decide),
   (flag_unflag_skip_flagged (fun _ _ => true) ⟨.fieldP "to" (.equalsP "x"), "F", {9}⟩
      ⟨.fieldP "to" (.equalsP "x"), "F", ∅⟩ ⟨3, ["F"], ["x"], [], "s"⟩ (.ok ())).2.1 (by decide),
   (flag_unflag_skip_flagged (fun _ _ => true) ⟨.fieldP "to" (.equalsP "x"), "F", {9}⟩
      ⟨.fieldP "to" (.equalsP "x"), "F", ∅⟩ ⟨3, ["F"], ["x"], [], "s"⟩ (.ok ())).2.2 (by decide)
      (by decide)⟩

/-- C5: the code silently truncates instead of failing — a token kind
missing from the `tokenNumbers` array (here the number `0`) is handed to
the generated parser as token number 0, which the goyacc driver treats as
end of input, so `Parse` returns the one rule before the stray token with
no error, a partial result for an input that violates the grammar and
contains a second well-formed rule. -/
theorem parse_truncates_at_unmapped_token :
    ParseGo (fun _ => true)
      (("if to = \"x\" then flag; 0 if from = \"y\" then unflag;").data) =
      (some [ParsedRule.flagR (some (.fieldP "to" (.equalsP "x"))) flaggedFlag], none) := by
  rfl

/-- C9: the guard `resp.StatusCode < 200 && resp.StatusCode >= 300` of
`StreamRule.handleMessage` is false for every integer status code, so the
error-response branch is unreachable and every response — any status code
whatsoever — is handled as a success. -/
theorem status_guard_unreachable (statusCode : Int) :
    statusGuardGo statusCode = false ∧ handleMessageStatus statusCode = .ok () := by
  have h : statusGuardGo statusCode = false := by
    unfold statusGuardGo
    by_cases h1 : statusCode < 200
    · by_cases h2 : statusCode ≥ 300
      · omega
      · simp [h1, h2]
    · simp [h1]
  exact ⟨h, by unfold handleMessageStatus; simp [h]⟩

/-- C6 counterexample: a `StreamRule` of `rules/rules.go` with a nonempty
pending set issues a batched request, but it is a body fetch, not a
mailbox mutation — the action's request trace contains no mutation
request, contradicting the claim that every rule's action issues exactly
one batched mutation request for the swapped-out set. -/
theorem stream_action_issues_no_mutation :
    ((StreamRule.action ⟨.fieldP "to" (.equalsP "x"), "cmd", {3}⟩ (.ok ()) []).2.1.filter
      (fun q => isMutation q) = []) ∧
    (⟨.fieldP "to" (.equalsP "x"), "cmd", ({3} : Finset Nat)⟩ : StreamRule).messages ≠ ∅ := by
  exact ⟨by decide, by decide⟩

/-- C6 amended: every rule's action step first swaps the pending set for a
fresh empty one (the resulting rule is the old rule with an empty pending
set — predicate and mailbox/flag/command configuration unchanged); if the
swapped-out set is empty it returns success without issuing any client
request; otherwise it issues exactly one batched client request carrying
exactly the swapped-out set — a mailbox mutation (move, add-flags or
remove-flags) for Move/Flag/Unflag rules, and a body fetch for Stream
rules, whose deliveries then go per message to the external command rather
than to the mailbox client. -/
theorem action_swaps_and_batches (mr : MoveRule) (fr : FlagRule) (ur : UnflagRule)
    (sr : StreamRule) (respM respF respU fetchResp : Except String Unit)
    (derrs : List String) :
    ((mr.action respM).1 = { mr with messages := (∅ : Finset Nat) } ∧
     (mr.action respM).2.1 =
       (if mr.messages = ∅ then [] else [.uidMove mr.messages mr.mailbox]) ∧
     (mr.messages = ∅ → (mr.action respM).2.2 = .ok ()) ∧
     (∀ q ∈ (mr.action respM).2.1, isMutation q = true ∧ requestUids q = mr.messages)) ∧
    ((fr.action respF).1 = { fr with messages := (∅ : Finset Nat) } ∧
     (fr.action respF).2.1 =
       (if fr.messages = ∅ then [] else [.uidStore fr.messages true fr.flag]) ∧
     (fr.messages = ∅ → (fr.action respF).2.2 = .ok ()) ∧
     (∀ q ∈ (fr.action respF).2.1, isMutation q = true ∧ requestUids q = fr.messages)) ∧
    ((ur.action respU).1 = { ur with messages := (∅ : Finset Nat) } ∧
     (ur.action respU).2.1 =
       (if ur.messages = ∅ then [] else [.uidStore ur.messages false ur.flag]) ∧
     (ur.messages = ∅ → (ur.action respU).2.2 = .ok ()) ∧
     (∀ q ∈ (ur.action respU).2.1, isMutation q = true ∧ requestUids q = ur.messages)) ∧
    ((sr.action fetchResp derrs).1 = { sr with messages := (∅ : Finset Nat) } ∧
     (sr.action fetchResp derrs).2.1 =
       (if sr.messages = ∅ then [] else [.uidFetch sr.messages]) ∧
     (sr.messages = ∅ → (sr.action fetchResp derrs).2.2 = .ok ()) ∧
     (∀ q ∈ (sr.action fetchResp derrs).2.1, isMutation q = false ∧ requestUids q = sr.messages)) := by
  refine ⟨⟨?_, ?_, ?_, ?_⟩, ⟨?_, ?_, ?_, ?_⟩, ⟨?_, ?_, ?_, ?_⟩, ⟨?_, ?_, ?_, ?_⟩⟩ <;>
    first
      | (unfold MoveRule.action
         by_cases h : mr.messages = ∅ <;>
           simp +contextual [h, isMutation, requestUids])
      | (unfold FlagRule.action
         by_cases h : fr.messages = ∅ <;>
           simp +contextual [h, isMutation, requestUids])
      | (unfold UnflagRule.action
         by_cases h : ur.messages = ∅ <;>
           simp +contextual [h, isMutation, requestUids])
      | (unfold StreamRule.action
         by_cases h : sr.messages = ∅ <;>
           simp +contextual [h, isMutation, requestUids])

/-- When the following token is not `and`/`or`, the condition chain stops
(the yacc parser reduces). -/
theorem condLoop_stop (cOk : String → Bool) (f : Nat) (acc : Predicate) (rest : List GTok)
    (hA : rest.head? ≠ some .kwAnd) (hO : rest.head? ≠ some .kwOr) :
    condLoop cOk (f + 1) acc rest = .ok (acc, rest) := by
  cases rest with
  | nil => rfl
  | cons g rs => cases g <;> simp_all [condLoop]

/-- C3: in the condition grammar, `and` and `or` are parsed at one shared
precedence level with left associativity — a condition of shape
`c1 or c2 and c3` parses as `(c1 or c2) and c3` — and `not` binds tighter
than both, so `not c1 and c2` parses as `(not c1) and c2`; a parenthesised
condition is parsed as one unit, overriding this grouping.  The clauses are
stated schematically over any token sequences `ts1`, `ts2`, `ts3` whose
prefixes parse as units (`parseUnit`), with the fuels staggered as the
parse consumes them. -/
theorem and_or_flat_left_assoc_not_tighter (cOk : String → Bool) (g f : Nat)
    (ts1 ts2 ts3 rest : List GTok) (c1 c2 c3 : Predicate) :
    (parseUnit cOk (g + 3) ts1 = .ok (c1, .kwOr :: ts2) →
     parseUnit cOk (g + 2) ts2 = .ok (c2, .kwAnd :: ts3) →
     parseUnit cOk (g + 1) ts3 = .ok (c3, rest) →
     rest.head? ≠ some .kwAnd → rest.head? ≠ some .kwOr →
     parseCondition cOk (g + 3 + 1) ts1 = .ok (.andP (.orP c1 c2) c3, rest)) ∧
    (parseUnit cOk (g + 1) ts1 = .ok (c1, .kwAnd :: ts2) →
     parseUnit cOk (g + 1) ts2 = .ok (c2, rest) →
     rest.head? ≠ some .kwAnd → rest.head? ≠ some .kwOr →
     parseCondition cOk (g + 1 + 1 + 1) (.kwNot :: ts1) =
       .ok (.andP (.notP c1) c2, rest)) ∧
    (parseCondition cOk f ts1 = .ok (c1, .rparen :: rest) →
     parseUnit cOk (f + 1) (.lparen :: ts1) = .ok (c1, rest)) := by
  refine ⟨?_, ?_, ?_⟩
  · intro h1 h2 h3 hA hO
    simp only [parseCondition, h1]
    simp only [condLoop, h2]
    simp only [h3]
    exact condLoop_stop cOk g _ rest hA hO
  · intro h1 h2 hA hO
    simp only [parseCondition, parseUnit, h1]
    simp only [condLoop, h2]
    exact condLoop_stop cOk g _ rest hA hO
  · intro h1
    simp only [parseUnit, h1]

/-- C3 witness: the clauses applied to concrete token sequences (the
conditions `to = "x" or from = "y" and subject = "z"`,
`not to = "x" and subject = "y"`, and `(to = "x")`). -/
theorem and_or_flat_left_assoc_not_tighter_witness :
    (parseCondition (fun _ => true) 4
        [.ident "to", .equals, .quoteTok "\"x\"", .kwOr,
         .ident "from", .equals, .quoteTok "\"y\"", .kwAnd,
         .ident "subject", .equals, .quoteTok "\"z\""] =
      .ok (.andP (.orP (.fieldP "to" (.equalsP "x")) (.fieldP "from" (.equalsP "y")))
        (.fieldP "subject" (.equalsP "z")), [])) ∧
    (parseCondition (fun _ => true) 3
        [.kwNot, .ident "to", .equals, .quoteTok "\"x\"", .kwAnd,
         .ident "subject", .equals, .quoteTok "\"y\""] =
      .ok (.andP (.notP (.fieldP "to" (.equalsP "x"))) (.fieldP "subject" (.equalsP "y")), [])) ∧
    (parseUnit (fun _ => true) 3
        [.lparen, .ident "to", .equals, .quoteTok "\"x\"", .rparen] =
      .ok (.fieldP "to" (.equalsP "x"), [])) :=
  ⟨(and_or_flat_left_assoc_not_tighter (fun _ => true) 0 2
      [.ident "to", .equals, .quoteTok "\"x\"", .kwOr,
       .ident "from", .equals, .quoteTok "\"y\"", .kwAnd,
       .ident "subject", .equals, .quoteTok "\"z\""]
      [.ident "from", .equals, .quoteTok "\"y\"", .kwAnd,
       .ident "subject", .equals, .quoteTok "\"z\""]
      [.ident "subject", .equals, .quoteTok "\"z\""] []
      (.fieldP "to" (.equalsP "x")) (.fieldP "from" (.equalsP "y"))
      (.fieldP "subject" (.equalsP "z"))).1
      (by rfl) (by rfl) (by rfl) (by decide) (by decide),
   (and_or_flat_left_assoc_not_tighter (fun _ => true) 0 2
      [.ident "to", .equals, .quoteTok "\"x\"", .kwAnd,
       .ident "subject", .equals, .quoteTok "\"y\""]
      [.ident "subject", .equals, .quoteTok "\"y\""] [] []
      (.fieldP "to" (.equalsP "x")) (.fieldP "subject" (.equalsP "y"))
      (.fieldP "subject" (.equalsP "y"))).2.1
      (by rfl) (by rfl) (by decide) (by decide),
   (and_or_flat_left_assoc_not_tighter (fun _ => true) 0 2
      [.ident "to", .equals, .quoteTok "\"x\"", .rparen]
      [] [] [] (.fieldP "to" (.equalsP "x")) (.fieldP "to" (.equalsP "x"))
      (.fieldP "to" (.equalsP "x"))).2.2
      (by rfl)⟩

theorem utf8Len_nil : utf8Len [] = 0 := rfl

theorem utf8Len_cons (c : Char) (l : List Char) :
    utf8Len (c :: l) = c.utf8Size + utf8Len l := by
  simp [utf8Len]

theorem scanQuoteLoopAux_ch (c : Char) (cs : List Char) (p : Nat)
    (h1 : ¬c = quoteCh) (h2 : ¬c = backslashCh) (h3 : ¬c.toNat = 0) :
    Lexer.scanQuoteLoopAux (c :: cs) p =
      match Lexer.scanQuoteLoopAux cs (p + c.utf8Size) with
      | .ok (v, st') => .ok (c :: v, st')
      | .error q => .error q := by
  conv_lhs => unfold Lexer.scanQuoteLoopAux
  simp [h1, h2, h3]

theorem scanQuoteLoopAux_esc (e : Char) (cs : List Char) (p : Nat)
    (he : e = backslashCh ∨ e = quoteCh) :
    Lexer.scanQuoteLoopAux (backslashCh :: e :: cs) p =
      match Lexer.scanQuoteLoopAux cs (p + backslashCh.utf8Size + e.utf8Size) with
      | .ok (v, st') => .ok (backslashCh :: e :: v, st')
      | .error q => .error q := by
  conv_lhs => unfold Lexer.scanQuoteLoopAux
  rcases he with rfl | rfl <;> simp <;> (intro h; exact absurd h (by decide))

theorem scanQuoteLoopAux_append (us : List QUnit) (tail : List Char) (p : Nat)
    (hgood : ∀ u ∈ us, QUnit.good u = true) :
    Lexer.scanQuoteLoopAux (flatBody us ++ tail) p =
      (Lexer.scanQuoteLoopAux tail (p + utf8Len (flatBody us))).map
        (fun vst => (flatBody us ++ vst.1, vst.2)) := by
  induction us generalizing p with
  | nil =>
    simp only [flatBody, List.flatMap_nil, List.nil_append, utf8Len_nil, Nat.add_zero]
    cases Lexer.scanQuoteLoopAux tail p <;> simp [Except.map]
  | cons u us ih =>
    have hus : ∀ v ∈ us, QUnit.good v = true := fun v hv => hgood v (by simp [hv])
    cases u with
    | ch c =>
      have hu : QUnit.good (QUnit.ch c) = true := hgood _ (by simp)
      obtain ⟨⟨hc1, hc2⟩, hc3⟩ : (¬c = quoteCh ∧ ¬c = backslashCh) ∧ ¬c.toNat = 0 := by
        simpa [QUnit.good] using hu
      have hflat : flatBody (QUnit.ch c :: us) = c :: flatBody us := by
        simp [flatBody, QUnit.flat]
      rw [hflat]
      simp only [List.cons_append]
      rw [scanQuoteLoopAux_ch c _ p hc1 hc2 hc3]
      rw [ih (p + c.utf8Size) hus]
      rw [show p + c.utf8Size + utf8Len (flatBody us) = p + utf8Len (c :: flatBody us) from by
        rw [utf8Len_cons]; omega]
      cases Lexer.scanQuoteLoopAux tail (p + utf8Len (c :: flatBody us)) <;> simp [Except.map]
    | escQuote =>
      have hflat : flatBody (QUnit.escQuote :: us) = backslashCh :: quoteCh :: flatBody us := by
        simp [flatBody, QUnit.flat]
      rw [hflat]
      simp only [List.cons_append]
      rw [scanQuoteLoopAux_esc quoteCh _ p (Or.inr rfl)]
      rw [ih (p + backslashCh.utf8Size + quoteCh.utf8Size) hus]
      rw [show p + backslashCh.utf8Size + quoteCh.utf8Size + utf8Len (flatBody us) =
          p + utf8Len (backslashCh :: quoteCh :: flatBody us) from by
        rw [utf8Len_cons, utf8Len_cons]; omega]
      cases Lexer.scanQuoteLoopAux tail (p + utf8Len (backslashCh :: quoteCh :: flatBody us)) <;>
        simp [Except.map]
    | escBackslash =>
      have hflat : flatBody (QUnit.escBackslash :: us) =
          backslashCh :: backslashCh :: flatBody us := by
        simp [flatBody, QUnit.flat]
      rw [hflat]
      simp only [List.cons_append]
      rw [scanQuoteLoopAux_esc backslashCh _ p (Or.inl rfl)]
      rw [ih (p + backslashCh.utf8Size + backslashCh.utf8Size) hus]
      rw [show p + backslashCh.utf8Size + backslashCh.utf8Size + utf8Len (flatBody us) =
          p + utf8Len (backslashCh :: backslashCh :: flatBody us) from by
        rw [utf8Len_cons, utf8Len_cons]; omega]
      cases Lexer.scanQuoteLoopAux tail (p + utf8Len (backslashCh :: backslashCh :: flatBody us)) <;>
        simp [Except.map]

theorem scanQuoteLoopAux_stop_quote (rest : List Char) (p : Nat) :
    Lexer.scanQuoteLoopAux (quoteCh :: rest) p = .ok ([], ⟨quoteCh :: rest, p⟩) := by
  conv_lhs => unfold Lexer.scanQuoteLoopAux
  simp

theorem scanQuoteLoopAux_stop_nul (rest : List Char) (p : Nat) :
    Lexer.scanQuoteLoopAux (Char.ofNat 0 :: rest) p =
      .ok ([], ⟨Char.ofNat 0 :: rest, p⟩) := by
  conv_lhs => unfold Lexer.scanQuoteLoopAux
  simp

theorem scanQuoteLoopAux_bad_escape (c : Char) (rest : List Char) (p : Nat)
    (h1 : ¬c = backslashCh) (h2 : ¬c = quoteCh) :
    Lexer.scanQuoteLoopAux (backslashCh :: c :: rest) p = .error (p + 1) := by
  conv_lhs => unfold Lexer.scanQuoteLoopAux
  simp [h1, h2]
  rw [if_neg (by decide : ¬(backslashCh.toNat = 0 ∨ backslashCh = quoteCh))]
  rfl

theorem scanQuoteLoopAux_backslash_end (p : Nat) :
    Lexer.scanQuoteLoopAux [backslashCh] p = .error (p + 1) := by
  conv_lhs => unfold Lexer.scanQuoteLoopAux
  simp
  rw [if_neg (by decide : ¬(backslashCh.toNat = 0 ∨ backslashCh = quoteCh))]
  rfl

theorem scanQuote_unfold (st : Lexer) :
    Lexer.scanQuote st =
      match Lexer.scanQuoteLoopAux (Lexer.next st).rest (Lexer.next st).pos with
      | .error q => (⟨.error, "", q⟩, st)
      | .ok (content, st') =>
        match st'.rest with
        | [] => (⟨.error, "", st.pos⟩, st')
        | t :: _ => (⟨.quote, String.mk (quoteCh :: content ++ [t]), st.pos⟩, Lexer.next st') :=
  rfl

/-- C7 counterexample: the input `"a` followed by a NUL rune has no
closing quote at all, yet `scanQuote` returns a quote token rather than an
error token — the Go loop condition `lex.r > 0` treats a NUL rune as a
string terminator, exactly like an unescaped closing quote. -/
theorem scanQuote_nul_terminates_quote :
    (Lexer.scanQuote ⟨[quoteCh, 'a', Char.ofNat 0], 0⟩).1 =
      ⟨.quote, String.mk [quoteCh, 'a', Char.ofNat 0], 0⟩ := by
  rfl

/-- C7 amended: scanning a quoted string starts at `"` and consumes until
an unescaped `"` or a NUL rune, which also terminates the string as if it
were the closing quote; exactly the escape sequences backslash-quote and
backslash-backslash are legal; an illegal escape sequence yields an error
token positioned at the offending byte (the escaped rune, or end of input
for a trailing backslash), and input that ends before any terminator
yields an error token positioned at the opening quote's byte.  The clauses
quantify over any well-formed string body `us`. -/
theorem scanQuote_spec (us : List QUnit) (rest : List Char) (p : Nat) (c : Char)
    (hgood : ∀ u ∈ us, QUnit.good u = true) :
    (Lexer.scanQuote ⟨quoteCh :: (flatBody us ++ quoteCh :: rest), p⟩ =
      (⟨.quote, String.mk (quoteCh :: flatBody us ++ [quoteCh]), p⟩,
       ⟨rest, p + 1 + utf8Len (flatBody us) + 1⟩)) ∧
    (¬c = backslashCh → ¬c = quoteCh →
      (Lexer.scanQuote ⟨quoteCh :: (flatBody us ++ backslashCh :: c :: rest), p⟩).1 =
        ⟨.error, "", p + 1 + utf8Len (flatBody us) + 1⟩) ∧
    ((Lexer.scanQuote ⟨quoteCh :: (flatBody us ++ [backslashCh]), p⟩).1 =
      ⟨.error, "", p + 1 + utf8Len (flatBody us) + 1⟩) ∧
    ((Lexer.scanQuote ⟨quoteCh :: flatBody us, p⟩).1 = ⟨.error, "", p⟩) ∧
    (Lexer.scanQuote ⟨quoteCh :: (flatBody us ++ Char.ofNat 0 :: rest), p⟩ =
      (⟨.quote, String.mk (quoteCh :: flatBody us ++ [Char.ofNat 0]), p⟩,
       ⟨rest, p + 1 + utf8Len (flatBody us) + 1⟩)) := by
  have hq1 : quoteCh.utf8Size = 1 := rfl
  have hnext : ∀ (x : List Char), Lexer.next ⟨quoteCh :: x, p⟩ = ⟨x, p + 1⟩ := by
    intro x
    simp [Lexer.next, hq1]
  refine ⟨?_, ?_, ?_, ?_, ?_⟩
  · rw [scanQuote_unfold, hnext]
    rw [show ((⟨flatBody us ++ quoteCh :: rest, p + 1⟩ : Lexer).rest) =
      flatBody us ++ quoteCh :: rest from rfl]
    rw [show ((⟨flatBody us ++ quoteCh :: rest, p + 1⟩ : Lexer).pos) = p + 1 from rfl]
    rw [scanQuoteLoopAux_append us _ _ hgood, scanQuoteLoopAux_stop_quote]
    simp [Except.map, Lexer.next, hq1]
  · intro hc1 hc2
    rw [scanQuote_unfold, hnext]
    rw [show ((⟨flatBody us ++ backslashCh :: c :: rest, p + 1⟩ : Lexer).rest) =
      flatBody us ++ backslashCh :: c :: rest from rfl]
    rw [show ((⟨flatBody us ++ backslashCh :: c :: rest, p + 1⟩ : Lexer).pos) = p + 1 from rfl]
    rw [scanQuoteLoopAux_append us _ _ hgood, scanQuoteLoopAux_bad_escape c rest _ hc1 hc2]
    simp [Except.map]
  · rw [scanQuote_unfold, hnext]
    rw [show ((⟨flatBody us ++ [backslashCh], p + 1⟩ : Lexer).rest) =
      flatBody us ++ [backslashCh] from rfl]
    rw [show ((⟨flatBody us ++ [backslashCh], p + 1⟩ : Lexer).pos) = p + 1 from rfl]
    rw [scanQuoteLoopAux_append us _ _ hgood, scanQuoteLoopAux_backslash_end]
    simp [Except.map]
  · rw [scanQuote_unfold, hnext]
    rw [show ((⟨flatBody us, p + 1⟩ : Lexer).rest) = flatBody us from rfl]
    rw [show ((⟨flatBody us, p + 1⟩ : Lexer).pos) = p + 1 from rfl]
    rw [show flatBody us = flatBody us ++ [] from by simp]
    rw [scanQuoteLoopAux_append us _ _ hgood]
    rw [show Lexer.scanQuoteLoopAux [] (p + 1 + utf8Len (flatBody us)) =
      .ok ([], ⟨[], p + 1 + utf8Len (flatBody us)⟩) from rfl]
    simp [Except.map]
  · rw [scanQuote_unfold, hnext]
    rw [show ((⟨flatBody us ++ Char.ofNat 0 :: rest, p + 1⟩ : Lexer).rest) =
      flatBody us ++ Char.ofNat 0 :: rest from rfl]
    rw [show ((⟨flatBody us ++ Char.ofNat 0 :: rest, p + 1⟩ : Lexer).pos) = p + 1 from rfl]
    rw [scanQuoteLoopAux_append us _ _ hgood, scanQuoteLoopAux_stop_nul]
    simp [Except.map, Lexer.next, hq1]
    rfl

/-- C7 witness: the clauses applied to the concrete body `a\"` (an
ordinary character and a legal escape), closing quote followed by `z`, and
a bad escape with the character `x`. -/
theorem scanQuote_spec_witness :
    (∀ u ∈ [QUnit.ch 'a', QUnit.escQuote], QUnit.good u = true) ∧
    (Lexer.scanQuote
        ⟨quoteCh :: (flatBody [QUnit.ch 'a', QUnit.escQuote] ++ quoteCh :: ['z']), 0⟩ =
      (⟨.quote, String.mk (quoteCh :: flatBody [QUnit.ch 'a', QUnit.escQuote] ++ [quoteCh]), 0⟩,
       ⟨['z'], 0 + 1 + utf8Len (flatBody [QUnit.ch 'a', QUnit.escQuote]) + 1⟩)) ∧
    ((Lexer.scanQuote
        ⟨quoteCh :: (flatBody [QUnit.ch 'a', QUnit.escQuote] ++ backslashCh :: 'x' :: ['z']), 0⟩).1 =
      ⟨.error, "", 0 + 1 + utf8Len (flatBody [QUnit.ch 'a', QUnit.escQuote]) + 1⟩) :=
  ⟨by decide,
   (scanQuote_spec [QUnit.ch 'a', QUnit.escQuote] ['z'] 0 'x' (by decide)).1,
   (scanQuote_spec [QUnit.ch 'a', QUnit.escQuote] ['z'] 0 'x' (by decide)).2.1
     (by decide) (by decide)⟩

/-- `NextPart` skips, in order, every part whose media type parses to
something other than the target. -/
theorem findPart_skip (pmt : String → Except String String) (target : String)
    (pre rest : List MIMEPart)
    (hpre : ∀ q ∈ pre, ∃ mtq, pmt (headerGet q.contentType) = .ok mtq ∧ mtq ≠ target) :
    findPart pmt target (pre ++ rest) = findPart pmt target rest := by
  induction pre with
  | nil => rfl
  | cons q pre ih =>
    obtain ⟨mtq, hq, hne⟩ := hpre q (by simp)
    simp only [List.cons_append, findPart, hq]
    rw [if_neg hne]
    exact ih (fun v hv => hpre v (by simp [hv]))

/-- The first part whose media type is the target is decoded according to
its transfer encoding. -/
theorem findPart_match (pmt : String → Except String String) (target : String)
    (p : MIMEPart) (post : List MIMEPart)
    (hp : pmt (headerGet p.contentType) = .ok target) :
    findPart pmt target (p :: post) =
      .ok (match toLowerStr (headerGet p.transferEncoding) with
           | "base64" => .base64Reader p
           | "quoted-printable" => .quotedPrintableReader p
           | _ => .plainReader p) := by
  unfold findPart
  rw [hp]
  simp

/-- C8: for html-part stream delivery, a message whose top-level content
type is not a multipart type fails with the descriptive
`expected multipart message but found ...` error; for a multipart message
the parts are walked in order looking for the first `text/html` part,
whose reader decodes base64 when the transfer-encoding header lowercases
to `base64`, quoted-printable when it lowercases to `quoted-printable`,
and is the part as-is when the header is absent. -/
theorem messageMIME_html_semantics (pmt : String → Except String String) (msg : MailMsg)
    (mt : String) (pre post : List MIMEPart) (p : MIMEPart) :
    (pmt (headerGet msg.contentType) = .ok mt → ¬hasPrefixStr mt ("multipart/") = true →
      messageMIME pmt msg "text/html" =
        .error ("expected multipart message but found " ++ mt)) ∧
    (pmt (headerGet msg.contentType) = .ok mt → hasPrefixStr mt ("multipart/") = true →
     msg.parts = pre ++ p :: post →
     (∀ q ∈ pre, ∃ mtq, pmt (headerGet q.contentType) = .ok mtq ∧ mtq ≠ "text/html") →
     pmt (headerGet p.contentType) = .ok "text/html" →
      ((p.transferEncoding = none →
         messageMIME pmt msg "text/html" = .ok (.plainReader p)) ∧
       (∀ s, p.transferEncoding = some s → toLowerStr s = "base64" →
         messageMIME pmt msg "text/html" = .ok (.base64Reader p)) ∧
       (∀ s, p.transferEncoding = some s → toLowerStr s = "quoted-printable" →
         messageMIME pmt msg "text/html" = .ok (.quotedPrintableReader p)))) := by
  constructor
  · intro hmt hns
    unfold messageMIME
    rw [hmt]
    simp [hns]
  · intro hmt hs hparts hpre hp
    have hbase : messageMIME pmt msg "text/html" =
        .ok (match toLowerStr (headerGet p.transferEncoding) with
             | "base64" => .base64Reader p
             | "quoted-printable" => .quotedPrintableReader p
             | _ => .plainReader p) := by
      unfold messageMIME
      rw [hmt]
      simp only [hs]
      rw [hparts, findPart_skip pmt "text/html" pre _ hpre,
        findPart_match pmt "text/html" p post hp]
      simp
    refine ⟨?_, ?_, ?_⟩
    · intro hnone
      rw [hbase, hnone]
      rfl
    · intro s hsome hlow
      rw [hbase, hsome]
      show Except.ok (match toLowerStr s with
        | "base64" => PartReader.base64Reader p
        | "quoted-printable" => PartReader.quotedPrintableReader p
        | _ => PartReader.plainReader p) = _
      rw [hlow]
      rfl
    · intro s hsome hlow
      rw [hbase, hsome]
      show Except.ok (match toLowerStr s with
        | "base64" => PartReader.base64Reader p
        | "quoted-printable" => PartReader.quotedPrintableReader p
        | _ => PartReader.plainReader p) = _
      rw [hlow]
      rfl

/-- C8 witness: a plain-text top level fails with the descriptive error; a
concrete multipart message with a leading text part and a base64-encoded
HTML part yields the base64 reader of that part. -/
theorem messageMIME_html_semantics_witness :
    (messageMIME (fun s => .ok s) ⟨some "text/plain", []⟩ "text/html" =
      .error ("expected multipart message but found " ++ "text/plain")) ∧
    (messageMIME (fun s => .ok s)
        ⟨some "multipart/mixed",
         [⟨some "text/plain", none⟩, ⟨some "text/html", some "BASE64"⟩]⟩ "text/html" =
      .ok (.base64Reader ⟨some "text/html", some "BASE64"⟩)) :=
  ⟨(messageMIME_html_semantics (fun s => .ok s) ⟨some "text/plain", []⟩ "text/plain"
      [] [] ⟨none, none⟩).1 rfl (by decide),
   ((messageMIME_html_semantics (fun s => .ok s)
      ⟨some "multipart/mixed",
       [⟨some "text/plain", none⟩, ⟨some "text/html", some "BASE64"⟩]⟩ "multipart/mixed"
      [⟨some "text/plain", none⟩] [] ⟨some "text/html", some "BASE64"⟩).2 rfl (by decide)
      rfl
      (by
        intro q hq
        simp only [List.mem_singleton] at hq
        subst hq
        exact ⟨"text/plain", rfl, by decide⟩)
      rfl).2.1 "BASE64" rfl (by decide)⟩


/-- C10 counterexample: the two grammars denote different parsers — the
rule text `if to = "x" then stream "c";` is accepted by the
`stream`-capable grammar and rejected by `parse/rules.y`, which has no
`stream` action. -/
theorem two_grammars_disagree_on_stream :
    (ParseGo (fun _ => true) (("if to = \"x\" then stream \"c\";").data)).1 =
      some [ParsedRule.streamR (some (.fieldP "to" (.equalsP "x"))) "c"] ∧
    (ParseGoY (fun _ => true) (("if to = \"x\" then stream \"c\";").data)).1 = none :=
  ⟨rfl, rfl⟩

theorem replacePairAux_id (a b c : Char) (f : Nat) (l : List Char) (h : a ∉ l) :
    replacePairAux a b c f l = l := by
  induction f generalizing l with
  | zero => rfl
  | succ f ih =>
    cases l with
    | nil => rfl
    | cons x rest =>
      have hxa : ¬x = a := fun he => h (he ▸ List.mem_cons_self x rest)
      simp only [replacePairAux, hxa, if_false]
      rw [ih rest (fun hm => h (List.mem_cons_of_mem _ hm))]

theorem goStringOf_eq_strip (raw : String) (h : backslashCh ∉ raw.data) :
    goStringOf raw = stripQuotes raw := by
  have h1 : backslashCh ∉ (stripQuotes raw).data := by
    intro hm
    apply h
    have he : (stripQuotes raw).data = (raw.data.drop 1).dropLast := rfl
    rw [he] at hm
    exact List.mem_of_mem_drop (List.dropLast_subset _ hm)
  unfold goStringOf replacePair
  rw [replacePairAux_id _ _ _ _ _ h1]
  rw [replacePairAux_id _ _ _ _ _ h1]

theorem gOKb_tail {g : GTok} {ts : List GTok} (h : ∀ x ∈ g :: ts, gOKb x = true) :
    ∀ x ∈ ts, gOKb x = true :=
  fun x hx => h x (List.mem_cons_of_mem _ hx)

theorem gOKb_quote_no_backslash {raw : String} {ts : List GTok}
    (h : ∀ x ∈ GTok.quoteTok raw :: ts, gOKb x = true) : backslashCh ∉ raw.data := by
  have := h (GTok.quoteTok raw) (List.mem_cons_self _ _)
  simp [gOKb] at this
  simpa [List.contains] using this

theorem parseComparisonY_eq (cOk : String → Bool) (ts : List GTok)
    (h : ∀ g ∈ ts, gOKb g = true) :
    parseComparisonY cOk ts = parseComparison cOk ts := by
  rcases ts with _ | ⟨g1, ts⟩
  · rfl
  cases g1 <;> try rfl
  case ident fld =>
    rcases ts with _ | ⟨g2, ts⟩
    · rfl
    cases g2 <;> try rfl
    case tilde =>
      rcases ts with _ | ⟨g3, ts⟩
      · rfl
      cases g3 <;> try rfl
      case quoteTok raw =>
        have hbs : backslashCh ∉ raw.data :=
          gOKb_quote_no_backslash (gOKb_tail (gOKb_tail h))
        simp only [parseComparisonY, parseComparison]
        rw [goStringOf_eq_strip raw hbs]
    case equals =>
      rcases ts with _ | ⟨g3, ts⟩
      · rfl
      cases g3 <;> try rfl
      case quoteTok raw =>
        have hbs : backslashCh ∉ raw.data :=
          gOKb_quote_no_backslash (gOKb_tail (gOKb_tail h))
        simp only [parseComparisonY, parseComparison]
        rw [goStringOf_eq_strip raw hbs]

theorem parseComparison_pres (cOk : String → Bool) (ts : List GTok)
    (h : ∀ g ∈ ts, gOKb g = true) (p : Predicate) (r : List GTok)
    (he : parseComparison cOk ts = .ok (p, r)) :
    ∀ g ∈ r, gOKb g = true := by
  unfold parseComparison at he
  split at he
  · dsimp only at he
    split at he
    · split at he
      · simp only [Except.ok.injEq, Prod.mk.injEq] at he
        obtain ⟨-, rfl⟩ := he
        exact fun g hg => h g (by simp [hg])
      · exact absurd he (by simp)
    · exact absurd he (by simp)
  · split at he
    · simp only [Except.ok.injEq, Prod.mk.injEq] at he
      obtain ⟨-, rfl⟩ := he
      exact fun g hg => h g (by simp [hg])
    · exact absurd he (by simp)
  · exact absurd he (by simp)

theorem condY_eq_aux (cOk : String → Bool) : ∀ f : Nat,
    (∀ ts, (∀ g ∈ ts, gOKb g = true) →
      (parseUnitY cOk f ts = parseUnit cOk f ts ∧
       ∀ p r, parseUnit cOk f ts = .ok (p, r) → ∀ g ∈ r, gOKb g = true)) ∧
    (∀ ts, (∀ g ∈ ts, gOKb g = true) →
      (parseConditionY cOk f ts = parseCondition cOk f ts ∧
       ∀ p r, parseCondition cOk f ts = .ok (p, r) → ∀ g ∈ r, gOKb g = true)) ∧
    (∀ acc ts, (∀ g ∈ ts, gOKb g = true) →
      (condLoopY cOk f acc ts = condLoop cOk f acc ts ∧
       ∀ p r, condLoop cOk f acc ts = .ok (p, r) → ∀ g ∈ r, gOKb g = true)) := by
  intro f
  induction f with
  | zero =>
    refine ⟨fun ts h => ⟨rfl, ?_⟩, fun ts h => ⟨rfl, ?_⟩, fun acc ts h => ⟨rfl, ?_⟩⟩ <;>
      (intro p r he; simp [parseUnit, parseCondition, condLoop] at he)
  | succ f ih =>
    obtain ⟨ihU, ihC, ihL⟩ := ih
    refine ⟨?_, ?_, ?_⟩
    · intro ts h
      rcases ts with _ | ⟨g, ts⟩
      · exact ⟨parseComparisonY_eq cOk [] h,
          fun p r he => parseComparison_pres cOk [] h p r he⟩
      cases g
      case kwNot =>
        have h' := gOKb_tail h
        obtain ⟨hequ, hpres⟩ := ihU ts h'
        constructor
        · simp only [parseUnitY, parseUnit, hequ]
        · intro p r he
          simp only [parseUnit] at he
          cases hu : parseUnit cOk f ts with
          | error e => rw [hu] at he; exact absurd he (by simp)
          | ok pr =>
            obtain ⟨p0, r0⟩ := pr
            rw [hu] at he
            simp only [Except.ok.injEq, Prod.mk.injEq] at he
            obtain ⟨-, rfl⟩ := he
            exact hpres p0 r0 hu
      case lparen =>
        have h' := gOKb_tail h
        obtain ⟨heqc, hpres⟩ := ihC ts h'
        constructor
        · simp only [parseUnitY, parseUnit, heqc]
        · intro p r he
          simp only [parseUnit] at he
          cases hc : parseCondition cOk f ts with
          | error e => rw [hc] at he; exact absurd he (by simp)
          | ok pr =>
            obtain ⟨p0, r0⟩ := pr
            rw [hc] at he
            rcases r0 with _ | ⟨g0, r0⟩
            · exact absurd he (by simp)
            cases g0
            case rparen =>
              simp only [Except.ok.injEq, Prod.mk.injEq] at he
              obtain ⟨-, rfl⟩ := he
              exact fun g hg => hpres p0 _ hc g (by simp [hg])
            all_goals exact absurd he (by simp)
      all_goals exact ⟨parseComparisonY_eq cOk _ h,
        fun p r he => parseComparison_pres cOk _ h p r he⟩
    · intro ts h
      obtain ⟨hequ, hupres⟩ := ihU ts h
      constructor
      · simp only [parseConditionY, parseCondition, hequ]
        cases hu : parseUnit cOk f ts with
        | error e => simp
        | ok pr =>
          obtain ⟨p0, r0⟩ := pr
          simp only
          exact (ihL p0 r0 (hupres p0 r0 hu)).1
      · intro p r he
        simp only [parseCondition] at he
        cases hu : parseUnit cOk f ts with
        | error e => rw [hu] at he; exact absurd he (by simp)
        | ok pr =>
          obtain ⟨p0, r0⟩ := pr
          rw [hu] at he
          exact (ihL p0 r0 (hupres p0 r0 hu)).2 p r he
    · intro acc ts h
      rcases ts with _ | ⟨g, ts⟩
      · refine ⟨rfl, ?_⟩
        intro p r he
        simp only [condLoop, Except.ok.injEq, Prod.mk.injEq] at he
        obtain ⟨-, rfl⟩ := he
        simp
      cases g
      case kwAnd =>
        have h' := gOKb_tail h
        obtain ⟨hequ, hupres⟩ := ihU ts h'
        constructor
        · simp only [condLoopY, condLoop, hequ]
          cases hu : parseUnit cOk f ts with
          | error e => simp
          | ok pr =>
            obtain ⟨p0, r0⟩ := pr
            simp only
            exact (ihL (.andP acc p0) r0 (hupres p0 r0 hu)).1
        · intro p r he
          simp only [condLoop] at he
          cases hu : parseUnit cOk f ts with
          | error e => rw [hu] at he; exact absurd he (by simp)
          | ok pr =>
            obtain ⟨p0, r0⟩ := pr
            rw [hu] at he
            exact (ihL (.andP acc p0) r0 (hupres p0 r0 hu)).2 p r he
      case kwOr =>
        have h' := gOKb_tail h
        obtain ⟨hequ, hupres⟩ := ihU ts h'
        constructor
        · simp only [condLoopY, condLoop, hequ]
          cases hu : parseUnit cOk f ts with
          | error e => simp
          | ok pr =>
            obtain ⟨p0, r0⟩ := pr
            simp only
            exact (ihL (.orP acc p0) r0 (hupres p0 r0 hu)).1
        · intro p r he
          simp only [condLoop] at he
          cases hu : parseUnit cOk f ts with
          | error e => rw [hu] at he; exact absurd he (by simp)
          | ok pr =>
            obtain ⟨p0, r0⟩ := pr
            rw [hu] at he
            exact (ihL (.orP acc p0) r0 (hupres p0 r0 hu)).2 p r he
      all_goals {
        refine ⟨rfl, ?_⟩
        intro p r he
        simp only [condLoop, Except.ok.injEq, Prod.mk.injEq] at he
        obtain ⟨-, rfl⟩ := he
        exact h
      }

theorem parseActionY_eq (ts : List GTok) (h : ∀ g ∈ ts, gOKb g = true) :
    parseActionY ts = parseAction ts := by
  rcases ts with _ | ⟨g1, ts⟩
  · rfl
  cases g1 <;> try rfl
  case kwMove =>
    rcases ts with _ | ⟨g2, ts⟩
    · rfl
    cases g2 <;> try rfl
    case quoteTok raw =>
      have hbs : backslashCh ∉ raw.data := gOKb_quote_no_backslash (gOKb_tail h)
      simp only [parseActionY, parseAction]
      rw [goStringOf_eq_strip raw hbs]
  case kwFlag =>
    rcases ts with _ | ⟨g2, ts⟩
    · rfl
    cases g2 <;> try rfl
    case quoteTok raw =>
      have hbs : backslashCh ∉ raw.data := gOKb_quote_no_backslash (gOKb_tail h)
      simp only [parseActionY, parseAction]
      rw [goStringOf_eq_strip raw hbs]
  case kwUnflag =>
    rcases ts with _ | ⟨g2, ts⟩
    · rfl
    cases g2 <;> try rfl
    case quoteTok raw =>
      have hbs : backslashCh ∉ raw.data := gOKb_quote_no_backslash (gOKb_tail h)
      simp only [parseActionY, parseAction]
      rw [goStringOf_eq_strip raw hbs]
  case kwStream =>
    have := h .kwStream (List.mem_cons_self _ _)
    simp [gOKb] at this

theorem parseAction_pres (ts : List GTok) (h : ∀ g ∈ ts, gOKb g = true)
    (rule : ParsedRule) (r : List GTok) (he : parseAction ts = .ok (rule, r)) :
    ∀ g ∈ r, gOKb g = true := by
  unfold parseAction at he
  split at he <;>
    first
      | (simp only [Except.ok.injEq, Prod.mk.injEq] at he
         obtain ⟨-, rfl⟩ := he
         exact fun g hg => h g (by simp [hg]))
      | exact absurd he (by simp)

theorem parseRuleY_eq (cOk : String → Bool) (f : Nat) (ts : List GTok)
    (h : ∀ g ∈ ts, gOKb g = true) :
    parseRuleY cOk f ts = parseRule cOk f ts := by
  rcases ts with _ | ⟨g1, ts⟩
  · rfl
  cases g1 <;> try rfl
  case kwIf =>
    have h' := gOKb_tail h
    obtain ⟨heqc, hcpres⟩ := (condY_eq_aux cOk f).2.1 ts h'
    simp only [parseRuleY, parseRule, heqc]
    cases hc : parseCondition cOk f ts with
    | error e => simp
    | ok pr =>
      obtain ⟨c, r⟩ := pr
      rcases r with _ | ⟨g2, r⟩
      · rfl
      cases g2
      case kwThen =>
        have hr : ∀ g ∈ r, gOKb g = true := fun g hg =>
          hcpres c _ hc g (by simp [hg])
        show (match parseActionY r with
              | .ok (act, ts3) => Except.ok (act.withPredicate c, ts3)
              | .error e => Except.error e) =
             (match parseAction r with
              | .ok (act, ts3) => Except.ok (act.withPredicate c, ts3)
              | .error e => Except.error e)
        rw [parseActionY_eq r hr]
      all_goals rfl

theorem parseRule_pres (cOk : String → Bool) (f : Nat) (ts : List GTok)
    (h : ∀ g ∈ ts, gOKb g = true) (rule : ParsedRule) (r : List GTok)
    (he : parseRule cOk f ts = .ok (rule, r)) :
    ∀ g ∈ r, gOKb g = true := by
  rcases ts with _ | ⟨g1, ts⟩
  · exact absurd he (by simp [parseRule])
  cases g1
  case kwIf =>
    have h' := gOKb_tail h
    have hcpres := ((condY_eq_aux cOk f).2.1 ts h').2
    simp only [parseRule] at he
    cases hc : parseCondition cOk f ts with
    | error e => rw [hc] at he; exact absurd he (by simp)
    | ok pr =>
      obtain ⟨c, r0⟩ := pr
      rw [hc] at he
      rcases r0 with _ | ⟨g2, r0⟩
      · exact absurd he (by simp)
      cases g2
      case kwThen =>
        have hr0 : ∀ g ∈ r0, gOKb g = true := fun g hg =>
          hcpres c _ hc g (by simp [hg])
        have he2 : (match parseAction r0 with
            | Except.ok (act, ts3) => Except.ok (act.withPredicate c, ts3)
            | Except.error e => Except.error e) = Except.ok (rule, r) := he
        cases ha : parseAction r0 with
        | error e => rw [ha] at he2; exact absurd he2 (by simp)
        | ok ar =>
          obtain ⟨act, r1⟩ := ar
          rw [ha] at he2
          simp only [Except.ok.injEq, Prod.mk.injEq] at he2
          obtain ⟨-, rfl⟩ := he2
          exact parseAction_pres r0 hr0 act r1 ha
      all_goals exact absurd he (by simp)
  all_goals exact absurd he (by simp [parseRule])

theorem parseRulesLoopY_eq (cOk : String → Bool) (f : Nat) : ∀ (n : Nat) (ts : List GTok),
    (∀ g ∈ ts, gOKb g = true) →
    parseRulesLoopY cOk f n ts = parseRulesLoop cOk f n ts := by
  intro n
  induction n with
  | zero => intro ts h; rfl
  | succ n ih =>
    intro ts h
    simp only [parseRulesLoopY, parseRulesLoop, parseRuleY_eq cOk f ts h]
    cases hr : parseRule cOk f ts with
    | error e => simp
    | ok rr =>
      obtain ⟨rule, r⟩ := rr
      rcases r with _ | ⟨g2, r⟩
      · rfl
      cases g2
      case semi =>
        by_cases hre : r.isEmpty
        · simp [hre]
        · have hr' : ∀ g ∈ r, gOKb g = true := fun g hg =>
            parseRule_pres cOk f ts h rule _ hr g (by simp [hg])
          simp [hre, ih r hr']
      all_goals rfl

/-- C10 amended: on every rule-file text whose token stream contains no
`stream` keyword and no backslash inside a quoted literal, the parser of
`parse/rules.y` and the `stream`-capable parser accept exactly the same
inputs and produce structurally identical rule lists; they differ exactly
in that the `stream`-capable grammar adds the `stream` action and
unescapes the two escape sequences in string literals, which `rules.y`
leaves as written (stripping only the surrounding quotes). -/
theorem grammars_equivalent_on_common_fragment (cOk : String → Bool) (input : List Char)
    (h : ∀ g ∈ (toGrammarTokens (lexInput input)).1, gOKb g = true) :
    ParseGoY cOk input = ParseGo cOk input := by
  rcases ht : toGrammarTokens (lexInput input) with ⟨gtoks, lexErr⟩
  rw [ht] at h
  simp only at h
  simp only [ParseGoY, ParseGo, yaccParseY, yaccParse, ht]
  rw [parseRulesLoopY_eq cOk _ _ gtoks h]

/-- C10 witness: the equivalence applied to a concrete stream-free,
escape-free rule file. -/
theorem grammars_equivalent_on_common_fragment_witness :
    (∀ g ∈ (toGrammarTokens (lexInput (("if to = \"x\" then flag \"F\";").data))).1,
      gOKb g = true) ∧
    ParseGoY (fun _ => true) (("if to = \"x\" then flag \"F\";").data) =
      ParseGo (fun _ => true) (("if to = \"x\" then flag \"F\";").data) :=
  ⟨by decide,
   grammars_equivalent_on_common_fragment (fun _ => true)
     (("if to = \"x\" then flag \"F\";").data) (by decide)⟩
